import Mathlib

/-!
Shallow embedding of `autoXRD/tabulate_cifs/__init__.py`.

The pipeline has three stages:
* `getStoichiometricInfo` — ingestion and filtering (keeps ordered structures,
  parses measurement temperature and report date from the raw CIF text);
* `getUniqueStructInfo` — grouping by structural prototype via a matcher;
* `getRecentRTEntry` — per-group representative selection (closest to 293 K,
  ties broken by most recent date string).

Crystal structures are abstract values of a type `α`; the structure matcher is
an abstract Boolean relation `fit`. Python floats are modelled as rationals,
Python exceptions as `Except Unit`, and Python's stable `sorted` as a stable
insertion sort (Mathlib's for the total temperature key, a monadic one for the
date key, whose comparison fails on `None`, as Python's `<` does).
-/

namespace TabulateCifs

attribute [local semireducible] Rat.add Rat.sub Rat.mul Rat.inv

instance {ε α : Type} [DecidableEq ε] [DecidableEq α] : DecidableEq (Except ε α) := fun a b =>
  match a, b with
  | Except.error e, Except.error f =>
    if h : e = f then isTrue (by rw [h]) else isFalse (by intro hc; cases hc; exact h rfl)
  | Except.ok x, Except.ok y =>
    if h : x = y then isTrue (by rw [h]) else isFalse (by intro hc; cases hc; exact h rfl)
  | Except.error _, Except.ok _ => isFalse (by intro hc; cases hc)
  | Except.ok _, Except.error _ => isFalse (by intro hc; cases hc)

/-! ### Text scanning: `parse_measurement_conditions` -/

/-- The CIF marker for the report date (`_audit_creation_date`). -/
def dateMarker : String := "_audit_creation_date"

/-- The CIF marker for the measurement temperature
(`_cell_measurement_temperature`). -/
def tempMarker : String := "_cell_measurement_temperature"

/-- Python's substring test `pat in s`. -/
def containsStr (pat s : String) : Bool := decide (pat.toList <:+: s.toList)

/-- Accumulator-based whitespace splitter over the characters of a line;
`acc` holds the characters of the token being read. -/
def pySplitChars : List Char → List Char → List String
  | acc, [] => if acc.isEmpty then [] else [⟨acc⟩]
  | acc, c :: cs =>
    if c.isWhitespace then
      if acc.isEmpty then pySplitChars [] cs else ⟨acc⟩ :: pySplitChars [] cs
    else pySplitChars (acc ++ [c]) cs

/-- Python's `str.split()` with no arguments: split on whitespace runs,
discarding empty pieces. -/
def pySplit (s : String) : List String := pySplitChars [] s.toList

/-- `line.split()[-1]`, the last whitespace-delimited token of a line
(defaulting to the empty string on a blank line, a case the code only
reaches when a marker is present, so the default never fires there). -/
def lastTokenD (line : String) : String := (pySplit line).getLastD ""

/-- Continuation of a digit group: digits with single underscores allowed
strictly between digits (PEP 515, as `float()` accepts); carries the value
and the number of digits read so far. -/
def digitsUnderAux : Nat → Nat → List Char → Option (Nat × Nat)
  | val, cnt, [] => some (val, cnt)
  | val, cnt, '_' :: c :: cs =>
    if c.isDigit then digitsUnderAux (val * 10 + (c.toNat - 48)) (cnt + 1) cs else none
  | val, cnt, c :: cs =>
    if c.isDigit then digitsUnderAux (val * 10 + (c.toNat - 48)) (cnt + 1) cs else none

/-- A non-empty digit group with PEP 515 underscores: starts with a digit,
underscores only between digits. Returns the value and the digit count. -/
def digitsUnder : List Char → Option (Nat × Nat)
  | [] => none
  | c :: cs => if c.isDigit then digitsUnderAux (c.toNat - 48) 1 cs else none

/-- Split a character list at the first character satisfying `p`, returning
the part before it and, when found, the part after it. -/
def splitAtChar (p : Char → Bool) : List Char → List Char × Option (List Char)
  | [] => ([], none)
  | c :: rest =>
    if p c then ([], some rest)
    else
      let r := splitAtChar p rest
      (c :: r.1, r.2)

/-- Value of a decimal mantissa `intPart.fracPart`; fails when both parts are
empty or either non-empty part is not a digit group. The scale of the
fractional part counts digits, not underscores. -/
def mantissaToRat (intPart fracPart : List Char) : Option ℚ :=
  match intPart.isEmpty, fracPart.isEmpty with
  | true, true => none
  | false, true => (digitsUnder intPart).map (fun p => (p.1 : ℚ))
  | true, false => (digitsUnder fracPart).map (fun p => (p.1 : ℚ) / (10 : ℚ) ^ p.2)
  | false, false =>
    match digitsUnder intPart, digitsUnder fracPart with
    | some ip, some fp => some ((ip.1 : ℚ) + (fp.1 : ℚ) / (10 : ℚ) ^ fp.2)
    | _, _ => none

/-- Signed decimal exponent (digit group, PEP 515 underscores allowed). -/
def parseExponent : List Char → Option Int
  | '+' :: rest => (digitsUnder rest).map (fun p => Int.ofNat p.1)
  | '-' :: rest => (digitsUnder rest).map (fun p => -(p.1 : Int))
  | cs => (digitsUnder cs).map (fun p => Int.ofNat p.1)

/-- Unsigned part of Python's `float()` grammar: a decimal mantissa with an
optional `e`/`E` exponent. -/
def pyFloatCore (cs : List Char) : Option ℚ :=
  let m := splitAtChar (fun c => c = 'e' || c = 'E') cs
  let ip := splitAtChar (fun c => c = '.') m.1
  match mantissaToRat ip.1 (ip.2.getD []) with
  | none => none
  | some q =>
    match m.2 with
    | none => some q
    | some ecs =>
      match parseExponent ecs with
      | none => none
      | some e => some (q * (10 : ℚ) ^ e)

/-- The finite-value part of Python's `float(s)` grammar: optional
whitespace and sign, decimal mantissa with optional exponent, PEP 515
underscores. Exact values are kept as rationals. `float()` additionally
accepts the special tokens covered by `isSpecialFloatTok`; together the two
cover exactly the strings on which `float()` does not raise `ValueError`. -/
def pyFloat (s : String) : Option ℚ :=
  let cs := ((s.toList.dropWhile Char.isWhitespace).reverse.dropWhile Char.isWhitespace).reverse
  match cs with
  | '+' :: rest => pyFloatCore rest
  | '-' :: rest => (pyFloatCore rest).map Neg.neg
  | _ => pyFloatCore cs

/-- ASCII lower-casing of one character. -/
def asciiLower (c : Char) : Char :=
  if 65 ≤ c.toNat && c.toNat ≤ 90 then Char.ofNat (c.toNat + 32) else c

/-- The special tokens `float()` accepts besides the numeric grammar:
`inf`, `infinity` and `nan`, in any case, with an optional sign and
surrounding whitespace. Their values are not finite numbers (they are
outside the rational value model); only their acceptance matters to the
properties proved here. -/
def isSpecialFloatTok (s : String) : Bool :=
  let cs := ((s.toList.dropWhile Char.isWhitespace).reverse.dropWhile Char.isWhitespace).reverse
  let cs2 :=
    match cs with
    | '+' :: rest => rest
    | '-' :: rest => rest
    | _ => cs
  let low := cs2.map asciiLower
  low == ['i', 'n', 'f'] || low == ['i', 'n', 'f', 'i', 'n', 'i', 't', 'y'] ||
    low == ['n', 'a', 'n']

/-- One iteration of the line loop of `parse_measurement_conditions`: a line
containing the date marker overwrites the date with its last token, and a line
containing the temperature marker overwrites the temperature with its last
token converted by `float()`, raising exactly when `float()` raises. A
special token (`inf`/`nan`), which `float()` accepts, is recorded with a
placeholder value: its non-finite value has no rational counterpart, and no
property proved here depends on the value stored for such a token — only on
the absence of an error. -/
def parseLine (st : ℚ × Option String) (line : String) : Except Unit (ℚ × Option String) :=
  let st1 := if containsStr dateMarker line then (st.1, some (lastTokenD line)) else st
  if containsStr tempMarker line then
    if isSpecialFloatTok (lastTokenD line) then Except.ok (0, st1.2)
    else
      match pyFloat (lastTokenD line) with
      | some t => Except.ok (t, st1.2)
      | none => Except.error ()
  else Except.ok st1

/-- `parse_measurement_conditions`, over the list of lines of the file:
starts from temperature `0.0` and no date and scans every line in order. -/
def parseMeasurementConditions (lines : List String) : Except Unit (ℚ × Option String) :=
  lines.foldlM parseLine (0, none)

/-! ### Ingestion: `get_stoichiometric_info` -/

/-- One file of the input directory: its parsed structure (abstract), the
parser's `is_ordered` verdict on it, and the raw lines of its text. -/
structure CIF (α : Type) where
  struct : α
  isOrdered : Bool
  lines : List String

/-- One iteration of the directory loop of `get_stoichiometric_info`: an
ordered structure is appended together with its parsed measurement conditions;
an unordered one is skipped. -/
def stoichStep {α : Type} (acc : List α × List ℚ × List (Option String)) (f : CIF α) :
    Except Unit (List α × List ℚ × List (Option String)) :=
  if f.isOrdered then
    match parseMeasurementConditions f.lines with
    | Except.error e => Except.error e
    | Except.ok td => Except.ok (acc.1 ++ [f.struct], acc.2.1 ++ [td.1], acc.2.2 ++ [td.2])
  else Except.ok acc

/-- `get_stoichiometric_info`: keep the ordered structures, in directory
order, and record the parsed temperature and date of each; a parse failure
aborts the whole call. -/
def getStoichiometricInfo {α : Type} (dir : List (CIF α)) :
    Except Unit (List α × List ℚ × List (Option String)) :=
  dir.foldlM stoichStep ([], [], [])

/-! ### Grouping: `get_unique_struct_info` -/

/-- Python's three-argument `zip`, truncating to the shortest list. -/
def zip3 {α β γ : Type} : List α → List β → List γ → List (α × β × γ)
  | a :: as, b :: bs, c :: cs => (a, b, c) :: zip3 as bs cs
  | _, _, _ => []

/-- The framework-discovery loop: a structure becomes a new framework iff
`fit` relates it (candidate first) to no framework discovered so far. -/
def discoverFrameworks {α : Type} (fit : α → α → Bool) (refs : List α) : List α :=
  refs.foldl (fun fws s => if fws.any (fun f => fit s f) then fws else fws ++ [s]) []

/-- `get_unique_struct_info`: for each discovered framework, collect every
(structure, temperature, date) triple whose structure the matcher fits
(framework first), in input order. -/
def getUniqueStructInfo {α : Type} (fit : α → α → Bool) (refs : List α)
    (temps : List ℚ) (dates : List (Option String)) :
    List (List α) × List (List ℚ) × List (List (Option String)) :=
  let fws := discoverFrameworks fit refs
  let trips := zip3 refs temps dates
  (fws.map (fun fw => ((trips.filter (fun x => fit fw x.1)).map (fun x => x.1))),
   fws.map (fun fw => ((trips.filter (fun x => fit fw x.1)).map (fun x => x.2.1))),
   fws.map (fun fw => ((trips.filter (fun x => fit fw x.1)).map (fun x => x.2.2))))

/-! ### Selection: `get_recent_RT_entry` -/

/-- `abs(temp - 293.0)`, the deviation from room temperature, in exact
arithmetic. This is faithful as the selection key; as to when two deviations
are exactly equal, the program's float64 rounding can create further ties
than exact arithmetic (distant magnitudes rounding to the same value), so
only sufficient conditions for ties are asserted here, never completeness. -/
def normalizedTemp (t : ℚ) : ℚ := |t - 293|

/-- The key order of the first sort (`key=lambda x: x[1]`): compare the
deviation component of a (structure, deviation, date) triple. -/
def devLE {α : Type} (a b : α × ℚ × Option String) : Prop := a.2.1 ≤ b.2.1

instance {α : Type} : DecidableRel (@devLE α) :=
  fun a b => inferInstanceAs (Decidable (a.2.1 ≤ b.2.1))

instance {α : Type} : IsTotal (α × ℚ × Option String) devLE :=
  ⟨fun a b => le_total a.2.1 b.2.1⟩

instance {α : Type} : IsTrans (α × ℚ × Option String) devLE :=
  ⟨fun _ _ _ h h2 => le_trans h h2⟩

/-- Python's `<` on strings, as lexicographic comparison of code points,
over the character lists. -/
def charsLt : List Char → List Char → Bool
  | [], [] => false
  | [], _ :: _ => true
  | _ :: _, [] => false
  | a :: as, b :: bs =>
    if a.toNat < b.toNat then true
    else if b.toNat < a.toNat then false
    else charsLt as bs

/-- Python's `<` on two strings. -/
def pyStrLt (a b : String) : Bool := charsLt a.toList b.toList

/-- Python's `<` on the date entries: defined on two strings, raising
a `TypeError` whenever either side is `None`. -/
def pyLtDate : Option String → Option String → Except Unit Bool
  | some a, some b => Except.ok (pyStrLt a b)
  | _, _ => Except.error ()

/-- Stable insertion of one (structure, date) pair into an already sorted
prefix, using Python's failing date comparison. -/
def insertByDate {α : Type} (x : α × Option String) :
    List (α × Option String) → Except Unit (List (α × Option String))
  | [] => Except.ok [x]
  | y :: ys =>
    match pyLtDate x.2 y.2 with
    | Except.error e => Except.error e
    | Except.ok b =>
      if b then Except.ok (x :: y :: ys)
      else
        match insertByDate x ys with
        | Except.error e => Except.error e
        | Except.ok r => Except.ok (y :: r)

/-- The second sort of `get_recent_RT_entry` (`key=lambda x: x[1]` over
(structure, date) pairs): a stable sort whose comparisons may raise. -/
def sortByDate {α : Type} (l : List (α × Option String)) :
    Except Unit (List (α × Option String)) :=
  l.foldlM (fun acc x => insertByDate x acc) []

/-- The body of the per-group loop of `get_recent_RT_entry`: sort by deviation
from 293, keep the entries tying the best deviation, sort those by date and
return the structure of the last one. Raises on an empty group
(`sorted_info[0]`) and on a date comparison involving `None`. -/
def selectRepresentative {α : Type} (structClass : List α) (tempClass : List ℚ)
    (dateClass : List (Option String)) : Except Unit α :=
  match (zip3 structClass (tempClass.map normalizedTemp) dateClass).insertionSort devLE with
  | [] => Except.error ()
  | best :: rest =>
    match sortByDate (((best :: rest).filter (fun e => decide (e.2.1 = best.2.1))).map
        (fun e => (e.1, e.2.2))) with
    | Except.error e => Except.error e
    | Except.ok sorted2 =>
      match sorted2.getLast? with
      | some lastEntry => Except.ok lastEntry.1
      | none => Except.error ()

/-- `get_recent_RT_entry`: one representative per group, in group order; any
per-group failure aborts the whole call. -/
def getRecentRTEntry {α : Type} (groupedStructs : List (List α))
    (groupedTemps : List (List ℚ)) (groupedDates : List (List (Option String))) :
    Except Unit (List α) :=
  (zip3 groupedStructs groupedTemps groupedDates).mapM
    (fun g => selectRepresentative g.1 g.2.1 g.2.2)

/-! ### Parsing lemmas -/

lemma parseLine_no_markers (st : ℚ × Option String) (line : String)
    (hd : containsStr dateMarker line = false)
    (ht : containsStr tempMarker line = false) :
    parseLine st line = Except.ok st := by
  simp [parseLine, hd, ht]

lemma foldlM_parseLine_ok_of_no_markers (lines : List String)
    (h : ∀ line ∈ lines,
      containsStr dateMarker line = false ∧ containsStr tempMarker line = false) :
    ∀ st, lines.foldlM parseLine st = Except.ok st := by
  induction lines with
  | nil => intro st; rfl
  | cons l ls ih =>
    intro st
    have hl := h l (List.mem_cons_self l ls)
    rw [List.foldlM_cons, parseLine_no_markers st l hl.1 hl.2]
    show ls.foldlM parseLine st = Except.ok st
    exact ih (fun line hline => h line (List.mem_cons_of_mem l hline)) st

/-- C7: a file none of whose lines contains the date marker or the temperature
marker parses to the default temperature `0.0` and an absent date. -/
theorem parse_missing_markers_defaults (lines : List String)
    (h : ∀ line ∈ lines,
      containsStr dateMarker line = false ∧ containsStr tempMarker line = false) :
    parseMeasurementConditions lines = Except.ok (0, none) :=
  foldlM_parseLine_ok_of_no_markers lines h (0, none)

/-- Witness for C7, on a concrete CIF body with neither marker. -/
theorem parse_missing_markers_defaults_witness :
    (∀ line ∈ ["loop_", "_cell_length_a  5.41", ""],
      containsStr dateMarker line = false ∧ containsStr tempMarker line = false) ∧
    parseMeasurementConditions ["loop_", "_cell_length_a  5.41", ""] = Except.ok (0, none) :=
  ⟨by decide, parse_missing_markers_defaults ["loop_", "_cell_length_a  5.41", ""] (by decide)⟩

lemma parseLine_bad_temp (st : ℚ × Option String) (line : String)
    (ht : containsStr tempMarker line = true)
    (hsp : isSpecialFloatTok (lastTokenD line) = false)
    (hf : pyFloat (lastTokenD line) = none) :
    parseLine st line = Except.error () := by
  simp [parseLine, ht, hsp, hf]

lemma foldlM_parseLine_error (lines : List String)
    (h : ∃ line ∈ lines, containsStr tempMarker line = true ∧
      isSpecialFloatTok (lastTokenD line) = false ∧
      pyFloat (lastTokenD line) = none) :
    ∀ st, lines.foldlM parseLine st = Except.error () := by
  induction lines with
  | nil =>
    rcases h with ⟨l, hl, _⟩
    exact absurd hl (List.not_mem_nil l)
  | cons l ls ih =>
    intro st
    rw [List.foldlM_cons]
    rcases h with ⟨l2, hl2, ht, hsp, hf⟩
    rcases List.mem_cons.mp hl2 with rfl | hmem
    · rw [parseLine_bad_temp st l2 ht hsp hf]; rfl
    · cases hpl : parseLine st l with
      | error e => cases e; rfl
      | ok st2 =>
        show ls.foldlM parseLine st2 = Except.error ()
        exact ih ⟨l2, hmem, ht, hsp, hf⟩ st2

/-- C10: a line carrying the temperature marker whose last token `float()`
rejects — neither a finite decimal of `float()`'s grammar (underscores
included) nor an `inf`/`infinity`/`nan` token — makes
`parse_measurement_conditions` raise; the defaulting covers only missing
markers, not malformed values. -/
theorem parse_malformed_temp_raises (lines : List String)
    (h : ∃ line ∈ lines, containsStr tempMarker line = true ∧
      isSpecialFloatTok (lastTokenD line) = false ∧
      pyFloat (lastTokenD line) = none) :
    parseMeasurementConditions lines = Except.error () :=
  foldlM_parseLine_error lines h (0, none)

/-- Witness for C10, on a temperature line whose value carries a trailing
uncertainty suffix that `float()` rejects. -/
theorem parse_malformed_temp_raises_witness :
    (∃ line ∈ ["data_abc", "_cell_measurement_temperature 293(2)"],
      containsStr tempMarker line = true ∧
      isSpecialFloatTok (lastTokenD line) = false ∧
      pyFloat (lastTokenD line) = none) ∧
    parseMeasurementConditions ["data_abc", "_cell_measurement_temperature 293(2)"] =
      Except.error () :=
  ⟨by decide, parse_malformed_temp_raises _ (by decide)⟩

/-! ### C8: empty group -/

/-- C8: on a group whose structure, temperature and date sequences are all
empty, `get_recent_RT_entry` fails (the `sorted_info[0]` access) instead of
returning a representative. -/
theorem getRecentRTEntry_empty_group :
    getRecentRTEntry ([[]] : List (List ℕ)) [[]] [[]] = Except.error () := rfl

/-! ### C2: deviation ties -/

/-- Counterexample to C2: the temperatures 292 K and 294 K have exactly equal
deviations from 293 K while being different, and the code does treat the two
entries as tied, deciding between them by date. -/
theorem deviation_tie_distinct_temps :
    normalizedTemp 292 = normalizedTemp 294 ∧ (292 : ℚ) ≠ 294 ∧
      getRecentRTEntry [[0, 1]] [[292, 294]] [[some "2020-01-01", some "2021-06-15"]] =
        Except.ok [1] := by
  refine ⟨by norm_num [normalizedTemp], by norm_num, by decide⟩

/-- C2 amended: ties in the deviation comparison are not restricted to
identical temperature values — any two temperatures that are identical or
symmetric about 293 (sum 586) yield exactly equal deviations. (Symmetric
pairs tie exactly in float64 as well, `fl(t-293) = -fl(t2-293)` when
`t + t2 = 586`; float rounding can create yet further ties, so no
completeness of this condition is asserted.) -/
theorem normalizedTemp_tie_of_symm (t1 t2 : ℚ)
    (h : t1 = t2 ∨ t1 + t2 = 586) :
    normalizedTemp t1 = normalizedTemp t2 := by
  unfold normalizedTemp
  rw [abs_eq_abs]
  rcases h with h | h
  · exact Or.inl (by linarith)
  · exact Or.inr (by linarith)

/-- Witness for the amended C2 at the counterexample's temperatures. -/
theorem normalizedTemp_tie_of_symm_witness :
    ((292 : ℚ) = 294 ∨ (292 : ℚ) + 294 = 586) ∧
      normalizedTemp 292 = normalizedTemp 294 :=
  ⟨Or.inr (by norm_num), normalizedTemp_tie_of_symm 292 294 (Or.inr (by norm_num))⟩

/-! ### List lemmas shared across claims -/

lemma ok_bind {ε α β : Type} (v : α) (g : α → Except ε β) :
    (Except.ok v : Except ε α) >>= g = g v := rfl

lemma error_bind {ε α β : Type} (e : ε) (g : α → Except ε β) :
    (Except.error e : Except ε α) >>= g = Except.error e := rfl

lemma zip3_proj {α β γ : Type} :
    ∀ l : List (α × β × γ),
      zip3 (l.map (fun x => x.1)) (l.map (fun x => x.2.1)) (l.map (fun x => x.2.2)) = l := by
  intro l
  induction l with
  | nil => rfl
  | cons x xs ih => simp [zip3, ih]

lemma getD_map_of_lt {α β : Type} (f : α → β) (l : List α) (i : ℕ) (hi : i < l.length)
    (d : β) (d2 : α) : (l.map f).getD i d = f (l.getD i d2) := by
  rw [List.getD_eq_getD_get?, List.getD_eq_getD_get?, List.get?_map,
    List.get?_eq_get hi]
  rfl

lemma zip3_mem_left {α β γ : Type} :
    ∀ (xs : List α) (ys : List β) (zs : List γ) (s : α), s ∈ xs →
      ys.length = xs.length → zs.length = xs.length →
      ∃ t d, (s, t, d) ∈ zip3 xs ys zs := by
  intro xs
  induction xs with
  | nil => intro ys zs s hs; cases hs
  | cons x xs ih =>
    intro ys zs s hs hy hz
    cases ys with
    | nil => simp at hy
    | cons y ys =>
      cases zs with
      | nil => simp at hz
      | cons z zs =>
        rcases List.mem_cons.mp hs with rfl | hmem
        · exact ⟨y, z, by simp [zip3]⟩
        · obtain ⟨t, d, htd⟩ := ih ys zs s hmem (by simpa using hy) (by simpa using hz)
          exact ⟨t, d, List.mem_cons_of_mem _ htd⟩

/-! ### C3: group membership -/

/-- A concrete matcher behaviour (not symmetric in effect on grouping): every
structure fits itself, and both structures 0 and 1 fit structure 2 when given
as first argument. -/
def fitC3 : ℕ → ℕ → Bool := fun x y => x == y || (x == 0 && y == 2) || (x == 1 && y == 2)

/-- Counterexample to C3: under the matcher `fitC3`, the input triple
(2, 30 K, "c") appears in the group of framework 0 and also in the group of
framework 1 (and in its own group), so a triple can appear in more than one
output group. -/
theorem triple_in_two_groups :
    ((2 : ℕ), (30 : ℚ), some "c") ∈ zip3
        ((getUniqueStructInfo fitC3 [0, 1, 2] [10, 20, 30] [some "a", some "b", some "c"]).1.getD 0 [])
        ((getUniqueStructInfo fitC3 [0, 1, 2] [10, 20, 30] [some "a", some "b", some "c"]).2.1.getD 0 [])
        ((getUniqueStructInfo fitC3 [0, 1, 2] [10, 20, 30] [some "a", some "b", some "c"]).2.2.getD 0 []) ∧
    ((2 : ℕ), (30 : ℚ), some "c") ∈ zip3
        ((getUniqueStructInfo fitC3 [0, 1, 2] [10, 20, 30] [some "a", some "b", some "c"]).1.getD 1 [])
        ((getUniqueStructInfo fitC3 [0, 1, 2] [10, 20, 30] [some "a", some "b", some "c"]).2.1.getD 1 [])
        ((getUniqueStructInfo fitC3 [0, 1, 2] [10, 20, 30] [some "a", some "b", some "c"]).2.2.getD 1 []) := by
  exact ⟨by decide, by decide⟩

/-- Membership characterization of the collection loop: a triple is in the
`i`-th group iff it is an input triple and the matcher fits the `i`-th
discovered framework (framework first) with its structure. -/
lemma mem_group_characterization {α : Type} (fit : α → α → Bool) (refs : List α)
    (temps : List ℚ) (dates : List (Option String)) (s : α) (t : ℚ) (d : Option String)
    (i : ℕ) (fw0 : α)
    (hi : i < (discoverFrameworks fit refs).length) :
    ((s, t, d) ∈ zip3 ((getUniqueStructInfo fit refs temps dates).1.getD i [])
        ((getUniqueStructInfo fit refs temps dates).2.1.getD i [])
        ((getUniqueStructInfo fit refs temps dates).2.2.getD i []) ↔
      ((s, t, d) ∈ zip3 refs temps dates ∧
        fit ((discoverFrameworks fit refs).getD i fw0) s = true)) := by
  have h1 : (getUniqueStructInfo fit refs temps dates).1 =
      (discoverFrameworks fit refs).map
        (fun fw => ((zip3 refs temps dates).filter (fun x => fit fw x.1)).map (fun x => x.1)) := rfl
  have h2 : (getUniqueStructInfo fit refs temps dates).2.1 =
      (discoverFrameworks fit refs).map
        (fun fw => ((zip3 refs temps dates).filter (fun x => fit fw x.1)).map (fun x => x.2.1)) := rfl
  have h3 : (getUniqueStructInfo fit refs temps dates).2.2 =
      (discoverFrameworks fit refs).map
        (fun fw => ((zip3 refs temps dates).filter (fun x => fit fw x.1)).map (fun x => x.2.2)) := rfl
  rw [h1, h2, h3, getD_map_of_lt _ _ i hi _ fw0, getD_map_of_lt _ _ i hi _ fw0,
    getD_map_of_lt _ _ i hi _ fw0, zip3_proj]
  rw [List.mem_filter]

lemma countP_two_indexes {β : Type} (p : β → Bool) (d : β) :
    ∀ (l : List β) (i j : ℕ), i < l.length → j < l.length → i ≠ j →
      p (l.getD i d) = true → p (l.getD j d) = true → 2 ≤ l.countP p := by
  intro l
  induction l with
  | nil => intro i j hi _ _ _ _; simp at hi
  | cons x t ih =>
    intro i j hi hj hij hpi hpj
    rw [List.countP_cons]
    cases i with
    | zero =>
      cases j with
      | zero => exact absurd rfl hij
      | succ m =>
        have hpx : p x = true := hpi
        have hm : m < t.length := by simpa using hj
        have hmem : t.getD m d ∈ t := by
          rw [List.getD_eq_get t d hm]
          exact List.get_mem t m hm
        have h1 : 0 < t.countP p := by
          rw [List.countP_pos]
          exact ⟨t.getD m d, hmem, hpj⟩
        rw [if_pos hpx]
        omega
    | succ m =>
      cases j with
      | zero =>
        have hpx : p x = true := hpj
        have hm : m < t.length := by simpa using hi
        have hmem : t.getD m d ∈ t := by
          rw [List.getD_eq_get t d hm]
          exact List.get_mem t m hm
        have h1 : 0 < t.countP p := by
          rw [List.countP_pos]
          exact ⟨t.getD m d, hmem, hpi⟩
        rw [if_pos hpx]
        omega
      | succ m2 =>
        have h2 := ih m m2 (by simpa using hi) (by simpa using hj)
          (fun h => hij (by rw [h])) hpi hpj
        omega

/-- C3 amended: a (structure, temperature, date) triple appears in the `i`-th
output group of `get_unique_struct_info` iff it is an input triple and the
matcher fits the `i`-th discovered framework (framework first) with its
structure; consequently a triple appears in at most one group whenever its
structure fits at most one discovered framework, while a structure fitting
several frameworks appears in several groups — so "at most one group" does
not hold for arbitrary matcher behaviour. -/
theorem mem_group_iff :
    (∀ (α : Type) (fit : α → α → Bool) (refs : List α) (temps : List ℚ)
      (dates : List (Option String)) (s : α) (t : ℚ) (d : Option String) (i : ℕ) (fw0 : α),
      i < (discoverFrameworks fit refs).length →
      ((s, t, d) ∈ zip3 ((getUniqueStructInfo fit refs temps dates).1.getD i [])
          ((getUniqueStructInfo fit refs temps dates).2.1.getD i [])
          ((getUniqueStructInfo fit refs temps dates).2.2.getD i []) ↔
        ((s, t, d) ∈ zip3 refs temps dates ∧
          fit ((discoverFrameworks fit refs).getD i fw0) s = true))) ∧
    (∀ (α : Type) (fit : α → α → Bool) (refs : List α) (temps : List ℚ)
      (dates : List (Option String)) (s : α) (t : ℚ) (d : Option String) (i j : ℕ) (fw0 : α),
      i < (discoverFrameworks fit refs).length →
      j < (discoverFrameworks fit refs).length → i ≠ j →
      (discoverFrameworks fit refs).countP (fun fw => fit fw s) ≤ 1 →
      (s, t, d) ∈ zip3 ((getUniqueStructInfo fit refs temps dates).1.getD i [])
        ((getUniqueStructInfo fit refs temps dates).2.1.getD i [])
        ((getUniqueStructInfo fit refs temps dates).2.2.getD i []) →
      (s, t, d) ∈ zip3 ((getUniqueStructInfo fit refs temps dates).1.getD j [])
        ((getUniqueStructInfo fit refs temps dates).2.1.getD j [])
        ((getUniqueStructInfo fit refs temps dates).2.2.getD j []) →
      False) := by
  constructor
  · intro α fit refs temps dates s t d i fw0 hi
    exact mem_group_characterization fit refs temps dates s t d i fw0 hi
  · intro α fit refs temps dates s t d i j fw0 hi hj hij hcount hmi hmj
    have hfi : fit ((discoverFrameworks fit refs).getD i fw0) s = true :=
      ((mem_group_characterization fit refs temps dates s t d i fw0 hi).mp hmi).2
    have hfj : fit ((discoverFrameworks fit refs).getD j fw0) s = true :=
      ((mem_group_characterization fit refs temps dates s t d j fw0 hj).mp hmj).2
    have h2 := countP_two_indexes (fun fw => fit fw s) fw0
      (discoverFrameworks fit refs) i j hi hj hij hfi hfj
    omega

/-- Witness for the amended C3: the iff instantiated at the counterexample
matcher, and the at-most-one consequence at an equality matcher under which
structure 0 fits exactly one discovered framework. -/
theorem mem_group_iff_witness :
    (((2 : ℕ), (30 : ℚ), some "c") ∈ zip3
        ((getUniqueStructInfo fitC3 [0, 1, 2] [10, 20, 30] [some "a", some "b", some "c"]).1.getD 1 [])
        ((getUniqueStructInfo fitC3 [0, 1, 2] [10, 20, 30] [some "a", some "b", some "c"]).2.1.getD 1 [])
        ((getUniqueStructInfo fitC3 [0, 1, 2] [10, 20, 30] [some "a", some "b", some "c"]).2.2.getD 1 []) ↔
      (((2 : ℕ), (30 : ℚ), some "c") ∈ zip3 [0, 1, 2] [10, 20, 30] [some "a", some "b", some "c"] ∧
        fitC3 ((discoverFrameworks fitC3 [0, 1, 2]).getD 1 0) 2 = true)) ∧
    (((0 : ℕ), (10 : ℚ), some "a") ∈ zip3
        ((getUniqueStructInfo (fun x y : ℕ => x == y) [0, 1] [10, 20] [some "a", some "b"]).1.getD 0 [])
        ((getUniqueStructInfo (fun x y : ℕ => x == y) [0, 1] [10, 20] [some "a", some "b"]).2.1.getD 0 [])
        ((getUniqueStructInfo (fun x y : ℕ => x == y) [0, 1] [10, 20] [some "a", some "b"]).2.2.getD 0 []) →
      ((0 : ℕ), (10 : ℚ), some "a") ∈ zip3
        ((getUniqueStructInfo (fun x y : ℕ => x == y) [0, 1] [10, 20] [some "a", some "b"]).1.getD 1 [])
        ((getUniqueStructInfo (fun x y : ℕ => x == y) [0, 1] [10, 20] [some "a", some "b"]).2.1.getD 1 [])
        ((getUniqueStructInfo (fun x y : ℕ => x == y) [0, 1] [10, 20] [some "a", some "b"]).2.2.getD 1 []) →
      False) :=
  ⟨mem_group_iff.1 ℕ fitC3 [0, 1, 2] [10, 20, 30] [some "a", some "b", some "c"]
      2 30 (some "c") 1 0 (by decide),
    mem_group_iff.2 ℕ (fun x y : ℕ => x == y) [0, 1] [10, 20] [some "a", some "b"]
      0 10 (some "a") 0 1 0 (by decide) (by decide) (by decide) (by decide)⟩

/-! ### C4: grouping completeness -/

lemma subset_foldl_discover {α : Type} (fit : α → α → Bool) :
    ∀ (l : List α) (acc : List α),
      acc ⊆ l.foldl (fun fws s => if fws.any (fun f => fit s f) then fws else fws ++ [s]) acc := by
  intro l
  induction l with
  | nil => intro acc; simp [List.foldl_nil]
  | cons x l ih =>
    intro acc
    rw [List.foldl_cons]
    have h1 : acc ⊆ (if acc.any (fun f => fit x f) then acc else acc ++ [x]) := by
      by_cases h : acc.any (fun f => fit x f)
      · simp [h]
      · simp only [h, if_false]
        exact List.subset_append_left acc [x]
    exact h1.trans (ih _)

lemma exists_framework_fits {α : Type} (fit : α → α → Bool) (hrefl : ∀ a, fit a a = true) :
    ∀ (l acc : List α) (s : α), s ∈ l →
      ∃ fw ∈ l.foldl (fun fws s => if fws.any (fun f => fit s f) then fws else fws ++ [s]) acc,
        fit s fw = true := by
  intro l
  induction l with
  | nil => intro acc s hs; cases hs
  | cons x l ih =>
    intro acc s hs
    rw [List.foldl_cons]
    rcases List.mem_cons.mp hs with rfl | hmem
    · by_cases h : acc.any (fun f => fit s f)
      · obtain ⟨fw, hfw, hfit⟩ := List.any_eq_true.mp h
        refine ⟨fw, subset_foldl_discover fit l _ ?_, hfit⟩
        simpa [h] using hfw
      · refine ⟨s, subset_foldl_discover fit l _ ?_, hrefl s⟩
        simp only [h, if_false]
        exact List.mem_append_right acc (by simp)
    · exact ih _ s hmem

/-- C4: when the matcher's fit relation is reflexive and symmetric, every
filtered structure appears in at least one output group of
`get_unique_struct_info` (it matches its own induced framework or an earlier
one). -/
theorem grouping_complete {α : Type} (fit : α → α → Bool) (refs : List α) (temps : List ℚ)
    (dates : List (Option String))
    (hrefl : ∀ a, fit a a = true) (hsymm : ∀ a b, fit a b = fit b a)
    (hlt : temps.length = refs.length) (hld : dates.length = refs.length) :
    ∀ s ∈ refs, ∃ g ∈ (getUniqueStructInfo fit refs temps dates).1, s ∈ g := by
  intro s hs
  obtain ⟨fw, hfw, hfit⟩ := exists_framework_fits fit hrefl refs [] s hs
  obtain ⟨t, d, htd⟩ := zip3_mem_left refs temps dates s hs hlt hld
  refine ⟨((zip3 refs temps dates).filter (fun x => fit fw x.1)).map (fun x => x.1), ?_, ?_⟩
  · show _ ∈ (discoverFrameworks fit refs).map
      (fun fw => ((zip3 refs temps dates).filter (fun x => fit fw x.1)).map (fun x => x.1))
    exact List.mem_map_of_mem _ hfw
  · refine List.mem_map_of_mem _ (List.mem_filter.mpr ⟨htd, ?_⟩)
    show fit fw s = true
    rw [hsymm]
    exact hfit

/-- Witness for C4, with an equality matcher on `Bool` structures. -/
theorem grouping_complete_witness :
    (∀ a : Bool, (a == a) = true) ∧
    (∀ s ∈ [true, false],
      ∃ g ∈ (getUniqueStructInfo (fun x y : Bool => x == y) [true, false]
        [10, 20] [some "a", none]).1, s ∈ g) :=
  ⟨by decide, grouping_complete (fun x y : Bool => x == y) [true, false] [10, 20]
    [some "a", none] (by decide) (by decide) (by decide) (by decide)⟩

/-! ### C5, C6: ingestion characterization -/

lemma stoich_aux {α : Type} :
    ∀ (dir : List (CIF α)) (acc : List α × List ℚ × List (Option String))
      (ss : List α) (ts : List ℚ) (ds : List (Option String)),
      dir.foldlM stoichStep acc = Except.ok (ss, ts, ds) →
      ss = acc.1 ++ (dir.filter (fun f => f.isOrdered)).map CIF.struct ∧
      ts.length = acc.2.1.length + dir.countP (fun f => f.isOrdered) ∧
      ds.length = acc.2.2.length + dir.countP (fun f => f.isOrdered) := by
  intro dir
  induction dir with
  | nil =>
    intro acc ss ts ds h
    rw [List.foldlM_nil] at h
    have h2 : (Except.ok acc : Except Unit (List α × List ℚ × List (Option String))) =
        Except.ok (ss, ts, ds) := h
    injection h2 with h3
    subst h3
    simp
  | cons f dir ih =>
    intro acc ss ts ds h
    rw [List.foldlM_cons] at h
    by_cases hf : f.isOrdered
    · cases hp : parseMeasurementConditions f.lines with
      | error e =>
        rw [show stoichStep acc f = Except.error e by simp [stoichStep, hf, hp],
          error_bind] at h
        cases h
      | ok td =>
        rw [show stoichStep acc f =
            Except.ok (acc.1 ++ [f.struct], acc.2.1 ++ [td.1], acc.2.2 ++ [td.2]) by
          simp [stoichStep, hf, hp], ok_bind] at h
        obtain ⟨h1, h2, h3⟩ := ih _ ss ts ds h
        refine ⟨?_, ?_, ?_⟩
        · rw [h1]
          simp [List.filter_cons, hf]
        · rw [h2]
          simp [List.countP_cons, hf]
          omega
        · rw [h3]
          simp [List.countP_cons, hf]
          omega
    · rw [show stoichStep acc f = Except.ok acc by simp [stoichStep, hf], ok_bind] at h
      obtain ⟨h1, h2, h3⟩ := ih _ ss ts ds h
      refine ⟨?_, ?_, ?_⟩
      · rw [h1]
        simp [List.filter_cons, hf]
      · rw [h2]
        simp [List.countP_cons, hf]
      · rw [h3]
        simp [List.countP_cons, hf]

/-- C5: `get_stoichiometric_info` retains exactly the ordered structures, in
directory order; under distinct parsed structures, a file's structure is in
the output iff the file is ordered, and excluded files contribute no
temperature or date entry (the outputs' lengths all equal the number of
ordered files). -/
theorem stoich_filter_correct {α : Type} (dir : List (CIF α)) (ss : List α) (ts : List ℚ)
    (ds : List (Option String))
    (hok : getStoichiometricInfo dir = Except.ok (ss, ts, ds)) :
    ss = (dir.filter (fun f => f.isOrdered)).map CIF.struct ∧
    ts.length = ss.length ∧ ds.length = ss.length ∧
    ((dir.map CIF.struct).Nodup → ∀ f ∈ dir, (f.struct ∈ ss ↔ f.isOrdered = true)) := by
  obtain ⟨h1, h2, h3⟩ := stoich_aux dir ([], [], []) ss ts ds hok
  simp only [List.nil_append] at h1
  have hlen : ss.length = dir.countP (fun f => f.isOrdered) := by
    rw [h1, List.length_map, ← List.countP_eq_length_filter]
  refine ⟨h1, by simp at h2; omega, by simp at h3; omega, ?_⟩
  intro hnd f hf
  constructor
  · intro hmem
    rw [h1] at hmem
    obtain ⟨g, hg, hgs⟩ := List.mem_map.mp hmem
    obtain ⟨hgdir, hgord⟩ := List.mem_filter.mp hg
    have hgf : g = f := List.inj_on_of_nodup_map hnd hgdir hf hgs
    rw [← hgf]
    exact hgord
  · intro hord
    rw [h1]
    exact List.mem_map_of_mem _ (List.mem_filter.mpr ⟨hf, hord⟩)

/-- Witness for C5, on a directory with one ordered and one unordered file. -/
theorem stoich_filter_correct_witness :
    getStoichiometricInfo [(⟨5, true, []⟩ : CIF ℕ), ⟨6, false, []⟩] =
      Except.ok ([5], [0], [none]) ∧
    ([5] : List ℕ) = ([⟨5, true, []⟩, (⟨6, false, []⟩ : CIF ℕ)].filter
      (fun f => f.isOrdered)).map CIF.struct ∧
    ([(0 : ℚ)]).length = ([5] : List ℕ).length := by
  have h := stoich_filter_correct [(⟨5, true, []⟩ : CIF ℕ), ⟨6, false, []⟩] [5] [0] [none]
    (by decide)
  exact ⟨by decide, h.1, h.2.1⟩

/-- C6: the three sequences from ingestion have equal lengths; the three
nested sequences from grouping have equal outer length and, groupwise, equal
inner lengths, with the grouped triples a sublist of the input triples (the
original relative order is preserved). -/
theorem parallel_array_invariant {α : Type} :
    (∀ (dir : List (CIF α)) (ss : List α) (ts : List ℚ) (ds : List (Option String)),
      getStoichiometricInfo dir = Except.ok (ss, ts, ds) →
      ss.length = ts.length ∧ ts.length = ds.length) ∧
    (∀ (fit : α → α → Bool) (refs : List α) (temps : List ℚ) (dates : List (Option String)),
      (getUniqueStructInfo fit refs temps dates).1.length =
        (getUniqueStructInfo fit refs temps dates).2.1.length ∧
      (getUniqueStructInfo fit refs temps dates).2.1.length =
        (getUniqueStructInfo fit refs temps dates).2.2.length ∧
      ∀ i : ℕ,
        ((getUniqueStructInfo fit refs temps dates).1.getD i []).length =
          ((getUniqueStructInfo fit refs temps dates).2.1.getD i []).length ∧
        ((getUniqueStructInfo fit refs temps dates).2.1.getD i []).length =
          ((getUniqueStructInfo fit refs temps dates).2.2.getD i []).length ∧
        List.Sublist
          (zip3 ((getUniqueStructInfo fit refs temps dates).1.getD i [])
            ((getUniqueStructInfo fit refs temps dates).2.1.getD i [])
            ((getUniqueStructInfo fit refs temps dates).2.2.getD i []))
          (zip3 refs temps dates)) := by
  constructor
  · intro dir ss ts ds hok
    obtain ⟨h1, h2, h3, _⟩ := stoich_filter_correct dir ss ts ds hok
    omega
  · intro fit refs temps dates
    have e1 : (getUniqueStructInfo fit refs temps dates).1 =
        (discoverFrameworks fit refs).map
          (fun fw => ((zip3 refs temps dates).filter (fun x => fit fw x.1)).map
            (fun x => x.1)) := rfl
    have e2 : (getUniqueStructInfo fit refs temps dates).2.1 =
        (discoverFrameworks fit refs).map
          (fun fw => ((zip3 refs temps dates).filter (fun x => fit fw x.1)).map
            (fun x => x.2.1)) := rfl
    have e3 : (getUniqueStructInfo fit refs temps dates).2.2 =
        (discoverFrameworks fit refs).map
          (fun fw => ((zip3 refs temps dates).filter (fun x => fit fw x.1)).map
            (fun x => x.2.2)) := rfl
    refine ⟨by rw [e1, e2]; simp, by rw [e2, e3]; simp, ?_⟩
    intro i
    by_cases hi : i < (discoverFrameworks fit refs).length
    · have d2 := (discoverFrameworks fit refs).getD i ((discoverFrameworks fit refs).get
        ⟨i, hi⟩)
      rw [e1, e2, e3, getD_map_of_lt _ _ i hi _ d2, getD_map_of_lt _ _ i hi _ d2,
        getD_map_of_lt _ _ i hi _ d2, zip3_proj]
      exact ⟨by simp, by simp, List.filter_sublist _⟩
    · push_neg at hi
      have hlen1 : ((discoverFrameworks fit refs).map
          (fun fw => ((zip3 refs temps dates).filter (fun x => fit fw x.1)).map
            (fun x => x.1))).length ≤ i := by simpa using hi
      have hlen2 : ((discoverFrameworks fit refs).map
          (fun fw => ((zip3 refs temps dates).filter (fun x => fit fw x.1)).map
            (fun x => x.2.1))).length ≤ i := by simpa using hi
      have hlen3 : ((discoverFrameworks fit refs).map
          (fun fw => ((zip3 refs temps dates).filter (fun x => fit fw x.1)).map
            (fun x => x.2.2))).length ≤ i := by simpa using hi
      rw [e1, e2, e3, List.getD_eq_default _ _ hlen1, List.getD_eq_default _ _ hlen2,
        List.getD_eq_default _ _ hlen3]
      exact ⟨rfl, rfl, List.nil_sublist _⟩

/-- Witness for C6, instantiating both stages at concrete inputs. -/
theorem parallel_array_invariant_witness :
    getStoichiometricInfo [(⟨1, true, ["_audit_creation_date 2020-01-01"]⟩ : CIF ℕ),
        ⟨2, false, []⟩, ⟨3, true, ["_cell_measurement_temperature 100"]⟩] =
      Except.ok ([1, 3], [0, 100], [some "2020-01-01", none]) ∧
    (([1, 3] : List ℕ).length = ([0, 100] : List ℚ).length ∧
      ([0, 100] : List ℚ).length = ([some "2020-01-01", none] : List (Option String)).length) ∧
    ((getUniqueStructInfo fitC3 [0, 1, 2] [10, 20, 30]
        [some "a", some "b", some "c"]).1.length =
      (getUniqueStructInfo fitC3 [0, 1, 2] [10, 20, 30]
        [some "a", some "b", some "c"]).2.1.length) ∧
    List.Sublist
      (zip3 ((getUniqueStructInfo fitC3 [0, 1, 2] [10, 20, 30]
          [some "a", some "b", some "c"]).1.getD 0 [])
        ((getUniqueStructInfo fitC3 [0, 1, 2] [10, 20, 30]
          [some "a", some "b", some "c"]).2.1.getD 0 [])
        ((getUniqueStructInfo fitC3 [0, 1, 2] [10, 20, 30]
          [some "a", some "b", some "c"]).2.2.getD 0 []))
      (zip3 [0, 1, 2] [10, 20, 30] [some "a", some "b", some "c"]) := by
  refine ⟨by decide, ?_, ?_, ?_⟩
  · exact (parallel_array_invariant (α := ℕ)).1
      [⟨1, true, ["_audit_creation_date 2020-01-01"]⟩, ⟨2, false, []⟩,
        ⟨3, true, ["_cell_measurement_temperature 100"]⟩]
      [1, 3] [0, 100] [some "2020-01-01", none] (by decide)
  · exact ((parallel_array_invariant (α := ℕ)).2 fitC3 [0, 1, 2] [10, 20, 30]
      [some "a", some "b", some "c"]).1
  · exact (((parallel_array_invariant (α := ℕ)).2 fitC3 [0, 1, 2] [10, 20, 30]
      [some "a", some "b", some "c"]).2.2 0).2.2

/-! ### Order lemmas for the Python string comparison -/

lemma charsLt_irrefl : ∀ cs : List Char, charsLt cs cs = false := by
  intro cs
  induction cs with
  | nil => rfl
  | cons c cs ih => simp [charsLt, ih]

lemma charsLt_asymm : ∀ as bs, charsLt as bs = true → charsLt bs as = false := by
  intro as
  induction as with
  | nil =>
    intro bs h
    cases bs with
    | nil => simp [charsLt] at h
    | cons b bs => simp [charsLt]
  | cons a as ih =>
    intro bs h
    cases bs with
    | nil => simp [charsLt] at h
    | cons b bs =>
      simp only [charsLt] at h ⊢
      by_cases h1 : a.toNat < b.toNat
      · have h2 : ¬ b.toNat < a.toNat := by omega
        simp [h1, h2]
      · by_cases h2 : b.toNat < a.toNat
        · simp [h1, h2] at h
        · simp only [h1, h2, if_false] at h ⊢
          exact ih bs h

lemma charsLt_trans : ∀ as bs cs, charsLt as bs = true → charsLt bs cs = true →
    charsLt as cs = true := by
  intro as
  induction as with
  | nil =>
    intro bs cs h1 h2
    cases bs with
    | nil => exact h2
    | cons b bs =>
      cases cs with
      | nil => simp [charsLt] at h2
      | cons c cs => simp [charsLt]
  | cons a as ih =>
    intro bs cs h1 h2
    cases bs with
    | nil => simp [charsLt] at h1
    | cons b bs =>
      cases cs with
      | nil => simp [charsLt] at h2
      | cons c cs =>
        simp only [charsLt] at h1 h2 ⊢
        by_cases hab : a.toNat < b.toNat
        · by_cases hbc : b.toNat < c.toNat
          · have hac : a.toNat < c.toNat := by omega
            simp [hac]
          · by_cases hcb : c.toNat < b.toNat
            · simp [hbc, hcb] at h2
            · have hac : a.toNat < c.toNat := by omega
              simp [hac]
        · by_cases hba : b.toNat < a.toNat
          · simp [hab, hba] at h1
          · simp only [hab, hba, if_false] at h1
            by_cases hbc : b.toNat < c.toNat
            · have hac : a.toNat < c.toNat := by omega
              simp [hac]
            · by_cases hcb : c.toNat < b.toNat
              · simp [hbc, hcb] at h2
              · simp only [hbc, hcb, if_false] at h2
                have hac : ¬ a.toNat < c.toNat := by omega
                have hca : ¬ c.toNat < a.toNat := by omega
                simp only [hac, hca, if_false]
                exact ih bs cs h1 h2

/-- The sortedness relation established by the date sort: whenever both sides
carry a date string, the left one does not come lexicographically after the
right one. -/
def dateLE {α : Type} (a b : α × Option String) : Prop :=
  ∀ x y, a.2 = some x → b.2 = some y → pyStrLt y x = false

lemma dateLE_refl {α : Type} (a : α × Option String) : dateLE a a := by
  intro x y hx hy
  rw [hx] at hy
  injection hy with h
  subst h
  exact charsLt_irrefl _

/-! ### The date sort on all-string inputs -/

lemma insertByDate_allSome {α : Type} (x : α × Option String) :
    ∀ l : List (α × Option String), x.2.isSome = true → (∀ y ∈ l, y.2.isSome = true) →
      ∃ r, insertByDate x l = Except.ok r ∧ r.Perm (x :: l) ∧
        (∀ y ∈ r, y.2.isSome = true) ∧
        (l.Pairwise dateLE → r.Pairwise dateLE) := by
  intro l
  induction l with
  | nil =>
    intro hx _
    refine ⟨[x], rfl, List.Perm.refl _, ?_, fun _ => List.pairwise_singleton _ _⟩
    intro y hy
    rcases List.mem_singleton.mp hy with rfl
    exact hx
  | cons y ys ih =>
    intro hx hl
    obtain ⟨sx, hsx⟩ := Option.isSome_iff_exists.mp hx
    have hy : y.2.isSome = true := hl y (List.mem_cons_self y ys)
    obtain ⟨sy, hsy⟩ := Option.isSome_iff_exists.mp hy
    have hcomp : pyLtDate x.2 y.2 = Except.ok (pyStrLt sx sy) := by
      rw [hsx, hsy]
      rfl
    by_cases hlt : pyStrLt sx sy = true
    · refine ⟨x :: y :: ys, by simp [insertByDate, hcomp, hlt], List.Perm.refl _, ?_, ?_⟩
      · intro z hz
        rcases List.mem_cons.mp hz with rfl | hz2
        · exact hx
        · exact hl z hz2
      · intro hpw
        refine List.Pairwise.cons ?_ hpw
        intro z hz u v hu hv
        rw [hsx] at hu
        injection hu with hu
        subst hu
        rcases List.mem_cons.mp hz with rfl | hz2
        · rw [hsy] at hv
          injection hv with hv
          subst hv
          exact charsLt_asymm _ _ hlt
        · have hyz : dateLE y z := List.rel_of_pairwise_cons hpw hz2
          have hzy : pyStrLt v sy = false := hyz sy v hsy hv
          cases hc : pyStrLt v sx with
          | false => rfl
          | true =>
            have hvy : pyStrLt v sy = true := charsLt_trans _ _ _ hc hlt
            rw [hvy] at hzy
            cases hzy
    · obtain ⟨r, hr, hperm, hsome, hpres⟩ := ih hx (fun z hz => hl z (List.mem_cons_of_mem y hz))
      refine ⟨y :: r, by simp [insertByDate, hcomp, hlt, hr], ?_, ?_, ?_⟩
      · exact (hperm.cons y).trans (List.Perm.swap x y ys)
      · intro z hz
        rcases List.mem_cons.mp hz with rfl | hz2
        · exact hy
        · exact hsome z hz2
      · intro hpw
        have hpw_ys : ys.Pairwise dateLE := List.Pairwise.of_cons hpw
        refine List.Pairwise.cons ?_ (hpres hpw_ys)
        intro z hz
        have hz3 : z ∈ x :: ys := hperm.mem_iff.mp hz
        rcases List.mem_cons.mp hz3 with rfl | hz4
        · intro u v hu hv
          rw [hsy] at hu
          injection hu with hu
          subst hu
          rw [hsx] at hv
          injection hv with hv
          subst hv
          cases hc : pyStrLt sx sy with
          | false => rfl
          | true => exact absurd hc hlt
        · exact List.rel_of_pairwise_cons hpw hz4

lemma foldlM_insertByDate_allSome {α : Type} :
    ∀ (l acc : List (α × Option String)),
      (∀ y ∈ l, y.2.isSome = true) → (∀ y ∈ acc, y.2.isSome = true) →
      acc.Pairwise dateLE →
      ∃ r, l.foldlM (fun a x => insertByDate x a) acc = Except.ok r ∧
        r.Perm (acc ++ l) ∧ r.Pairwise dateLE ∧ (∀ y ∈ r, y.2.isSome = true) := by
  intro l
  induction l with
  | nil =>
    intro acc _ h2 h3
    exact ⟨acc, by rw [List.foldlM_nil]; rfl, by simp, h3, h2⟩
  | cons x xs ih =>
    intro acc hl hacc hpw
    have hx : x.2.isSome = true := hl x (List.mem_cons_self x xs)
    obtain ⟨r1, hr1, hperm1, hsome1, hpres1⟩ := insertByDate_allSome x acc hx hacc
    rw [List.foldlM_cons, hr1, ok_bind]
    obtain ⟨r, hr, hperm, hpw2, hsome⟩ :=
      ih r1 (fun z hz => hl z (List.mem_cons_of_mem _ hz)) hsome1 (hpres1 hpw)
    refine ⟨r, hr, ?_, hpw2, hsome⟩
    exact hperm.trans ((hperm1.append_right xs).trans List.perm_middle.symm)

lemma sortByDate_allSome {α : Type} (l : List (α × Option String))
    (h : ∀ y ∈ l, y.2.isSome = true) :
    ∃ r, sortByDate l = Except.ok r ∧ r.Perm l ∧ r.Pairwise dateLE := by
  obtain ⟨r, hr, hperm, hpw, _⟩ :=
    foldlM_insertByDate_allSome l [] h (by simp) List.Pairwise.nil
  exact ⟨r, hr, by simpa using hperm, hpw⟩

/-! ### The date sort raising on absent dates -/

lemma insertByDate_none_inserted {α : Type} (x : α × Option String) (hx : x.2 = none)
    (y : α × Option String) (ys : List (α × Option String)) :
    insertByDate x (y :: ys) = Except.error () := by
  have h : pyLtDate x.2 y.2 = Except.error () := by
    rw [hx]
    cases y.2 <;> rfl
  simp [insertByDate, h]

lemma insertByDate_none_head {α : Type} (x y : α × Option String)
    (ys : List (α × Option String)) (hy : y.2 = none) :
    insertByDate x (y :: ys) = Except.error () := by
  have h : pyLtDate x.2 y.2 = Except.error () := by
    rw [hy]
    cases x.2 <;> rfl
  simp [insertByDate, h]

lemma foldlM_insertByDate_error {α : Type} :
    ∀ (l acc : List (α × Option String)),
      (∃ y ∈ l, y.2 = none) → (acc = [] → 2 ≤ l.length) →
      (∀ y ∈ acc, y.2.isSome = true) →
      l.foldlM (fun a x => insertByDate x a) acc = Except.error () := by
  intro l
  induction l with
  | nil =>
    intro acc h1 _ _
    rcases h1 with ⟨y, hy, _⟩
    cases hy
  | cons x xs ih =>
    intro acc hex hlen hsome
    rw [List.foldlM_cons]
    by_cases hx : x.2 = none
    · cases acc with
      | nil =>
        rw [show insertByDate x [] = Except.ok [x] from rfl, ok_bind]
        cases xs with
        | nil =>
          have := hlen rfl
          simp at this
        | cons z zs =>
          rw [List.foldlM_cons, insertByDate_none_head z x [] hx, error_bind]
      | cons a as =>
        rw [insertByDate_none_inserted x hx a as, error_bind]
    · have hxs : x.2.isSome = true := by
        cases h : x.2 with
        | none => exact absurd h hx
        | some v => rfl
      obtain ⟨r1, hr1, hperm1, hsome1, _⟩ := insertByDate_allSome x acc hxs hsome
      rw [hr1, ok_bind]
      have hex2 : ∃ y ∈ xs, y.2 = none := by
        rcases hex with ⟨y, hy, hyn⟩
        rcases List.mem_cons.mp hy with rfl | hmem
        · exact absurd hyn hx
        · exact ⟨y, hmem, hyn⟩
      refine ih r1 hex2 ?_ hsome1
      intro hr1nil
      exfalso
      have := hperm1.length_eq
      rw [hr1nil] at this
      simp at this

lemma sortByDate_error {α : Type} (l : List (α × Option String)) (hlen : 2 ≤ l.length)
    (hnone : ∃ y ∈ l, y.2 = none) : sortByDate l = Except.error () :=
  foldlM_insertByDate_error l [] hnone (fun _ => hlen) (by simp)

lemma sortByDate_singleton {α : Type} (x : α × Option String) :
    sortByDate [x] = Except.ok [x] := rfl

/-! ### Last element of a sorted list -/

lemma pairwise_getLast {β : Type} (R : β → β → Prop) (hrefl : ∀ a, R a a) :
    ∀ (l : List β) (e : β), l.Pairwise R → l.getLast? = some e → ∀ a ∈ l, R a e := by
  intro l
  induction l with
  | nil => intro e _ h; cases h
  | cons x xs ih =>
    intro e hpw hlast a ha
    cases xs with
    | nil =>
      have hex : e = x := by
        have : some x = some e := hlast
        injection this with h
        exact h.symm
      rcases List.mem_singleton.mp ha with rfl
      rw [hex]
      exact hrefl a
    | cons y ys =>
      rw [List.getLast?_cons_cons] at hlast
      rcases List.mem_cons.mp ha with rfl | ha2
      · have he : e ∈ y :: ys := by
          obtain ⟨hne, heq⟩ := List.mem_getLast?_eq_getLast (Option.mem_def.mpr hlast)
          rw [heq]
          exact List.getLast_mem hne
        exact List.rel_of_pairwise_cons hpw he
      · exact ih e (List.Pairwise.of_cons hpw) hlast a ha2

/-! ### Indexed membership in `zip3` -/

lemma zip3_length_eq {α β γ : Type} :
    ∀ (n : ℕ) (xs : List α) (ys : List β) (zs : List γ),
      xs.length = n → ys.length = n → zs.length = n → (zip3 xs ys zs).length = n := by
  intro n
  induction n with
  | zero =>
    intro xs ys zs hx _ _
    rw [List.length_eq_zero] at hx
    subst hx
    rfl
  | succ m ih =>
    intro xs ys zs hx hy hz
    cases xs with
    | nil => simp at hx
    | cons x xs =>
      cases ys with
      | nil => simp at hy
      | cons y ys =>
        cases zs with
        | nil => simp at hz
        | cons z zs =>
          show (zip3 xs ys zs).length + 1 = m + 1
          rw [ih xs ys zs (by simpa using hx) (by simpa using hy) (by simpa using hz)]

lemma zip3_getD_mem {α β γ : Type} (da : α) (db : β) (dc : γ) :
    ∀ (xs : List α) (ys : List β) (zs : List γ) (i : ℕ),
      i < xs.length → i < ys.length → i < zs.length →
      (xs.getD i da, ys.getD i db, zs.getD i dc) ∈ zip3 xs ys zs := by
  intro xs
  induction xs with
  | nil => intro ys zs i hi; simp at hi
  | cons x xs ih =>
    intro ys zs i hi hy hz
    cases ys with
    | nil => simp at hy
    | cons y ys =>
      cases zs with
      | nil => simp at hz
      | cons z zs =>
        cases i with
        | zero => simp [zip3]
        | succ j =>
          have := ih ys zs j (by simpa using hi) (by simpa using hy) (by simpa using hz)
          simpa [zip3, List.getD_cons_succ] using List.mem_cons_of_mem (x, y, z) this

lemma mem_zip3_getD {α β γ : Type} (da : α) (db : β) (dc : γ) :
    ∀ (xs : List α) (ys : List β) (zs : List γ) (a : α) (b : β) (c : γ),
      (a, b, c) ∈ zip3 xs ys zs →
      ∃ i, i < xs.length ∧ i < ys.length ∧ i < zs.length ∧
        xs.getD i da = a ∧ ys.getD i db = b ∧ zs.getD i dc = c := by
  intro xs
  induction xs with
  | nil => intro ys zs a b c h; cases h
  | cons x xs ih =>
    intro ys zs a b c h
    cases ys with
    | nil => cases h
    | cons y ys =>
      cases zs with
      | nil => cases h
      | cons z zs =>
        rcases List.mem_cons.mp h with heq | hmem
        · refine ⟨0, by simp, by simp, by simp, ?_, ?_, ?_⟩ <;>
            simp [Prod.ext_iff] at heq <;> simp [heq]
        · obtain ⟨i, h1, h2, h3, h4, h5, h6⟩ := ih ys zs a b c hmem
          exact ⟨i + 1, by simpa using h1, by simpa using h2, by simpa using h3,
            by simpa using h4, by simpa using h5, by simpa using h6⟩

lemma zip3_mem_third {α β γ : Type} :
    ∀ (xs : List α) (ys : List β) (zs : List γ) (e : α × β × γ),
      e ∈ zip3 xs ys zs → e.2.2 ∈ zs := by
  intro xs
  induction xs with
  | nil => intro ys zs e h; cases h
  | cons x xs ih =>
    intro ys zs e h
    cases ys with
    | nil => cases h
    | cons y ys =>
      cases zs with
      | nil => cases h
      | cons z zs =>
        rcases List.mem_cons.mp h with rfl | hmem
        · exact List.mem_cons_self z zs
        · exact List.mem_cons_of_mem z (ih ys zs e hmem)

/-! ### Helpers for the selection proofs -/

lemma two_ne_mem_length {β : Type} {a b : β} {l : List β} (ha : a ∈ l) (hb : b ∈ l)
    (hab : a ≠ b) : 2 ≤ l.length := by
  cases l with
  | nil => cases ha
  | cons x t =>
    cases t with
    | nil =>
      rcases List.mem_singleton.mp ha with rfl
      rcases List.mem_singleton.mp hb with rfl
      exact absurd rfl hab
    | cons y u => simp

lemma zip3_eq_range_map {α β γ : Type} (da : α) (db : β) (dc : γ) :
    ∀ (n : ℕ) (xs : List α) (ys : List β) (zs : List γ),
      xs.length = n → ys.length = n → zs.length = n →
      zip3 xs ys zs = (List.range n).map
        (fun k => (xs.getD k da, ys.getD k db, zs.getD k dc)) := by
  intro n
  induction n with
  | zero =>
    intro xs ys zs hx _ _
    rw [List.length_eq_zero] at hx
    subst hx
    rfl
  | succ m ih =>
    intro xs ys zs hx hy hz
    cases xs with
    | nil => simp at hx
    | cons x xs =>
      cases ys with
      | nil => simp at hy
      | cons y ys =>
        cases zs with
        | nil => simp at hz
        | cons z zs =>
          rw [List.range_succ_eq_map, List.map_cons, List.map_map]
          show (x, y, z) :: zip3 xs ys zs = (x, y, z) :: _
          congr 1
          rw [ih xs ys zs (by simpa using hx) (by simpa using hy) (by simpa using hz)]
          refine List.map_congr_left ?_
          intro k _
          simp [Function.comp, List.getD_cons_succ]

lemma filter_eq_singleton_of_unique :
    ∀ (l : List ℕ), l.Nodup → ∀ (q : ℕ → Bool) (i : ℕ), i ∈ l → q i = true →
      (∀ k ∈ l, q k = true → k = i) → l.filter q = [i] := by
  intro l
  induction l with
  | nil => intro _ q i hi; cases hi
  | cons x t ih =>
    intro hnd q i hi hqi huniq
    rcases List.nodup_cons.mp hnd with ⟨hxnotin, hndt⟩
    by_cases hqx : q x = true
    · have hxi : x = i := huniq x (List.mem_cons_self x t) hqx
      subst hxi
      rw [List.filter_cons, if_pos hqx]
      have ht : t.filter q = [] := by
        rw [List.filter_eq_nil]
        intro k hk hqk
        exact hxnotin (huniq k (List.mem_cons_of_mem x hk) hqk ▸ hk)
      rw [ht]
    · rw [List.filter_cons, if_neg hqx]
      have hit : i ∈ t := by
        rcases List.mem_cons.mp hi with rfl | h
        · exact absurd hqi hqx
        · exact h
      exact ih hndt q i hit hqi (fun k hk => huniq k (List.mem_cons_of_mem x hk))

lemma selectRepresentative_eq {α : Type} (sc : List α) (tc : List ℚ)
    (dc : List (Option String)) (best : α × ℚ × Option String)
    (rest : List (α × ℚ × Option String))
    (hs : (zip3 sc (tc.map normalizedTemp) dc).insertionSort devLE = best :: rest) :
    selectRepresentative sc tc dc =
      match sortByDate (((best :: rest).filter
          (fun e => decide (e.2.1 = best.2.1))).map (fun e => (e.1, e.2.2))) with
      | Except.error e => Except.error e
      | Except.ok sorted2 =>
        match sorted2.getLast? with
        | some lastEntry => Except.ok lastEntry.1
        | none => Except.error () := by
  unfold selectRepresentative
  rw [hs]

lemma selectRepresentative_eq_ok {α : Type} (sc : List α) (tc : List ℚ)
    (dc : List (Option String)) (best : α × ℚ × Option String)
    (rest : List (α × ℚ × Option String)) (r : List (α × Option String))
    (hs : (zip3 sc (tc.map normalizedTemp) dc).insertionSort devLE = best :: rest)
    (hrok : sortByDate (((best :: rest).filter
        (fun e => decide (e.2.1 = best.2.1))).map (fun e => (e.1, e.2.2))) = Except.ok r) :
    selectRepresentative sc tc dc =
      match r.getLast? with
      | some lastEntry => Except.ok lastEntry.1
      | none => Except.error () := by
  rw [selectRepresentative_eq sc tc dc best rest hs, hrok]

lemma selectRepresentative_eq_error {α : Type} (sc : List α) (tc : List ℚ)
    (dc : List (Option String)) (best : α × ℚ × Option String)
    (rest : List (α × ℚ × Option String))
    (hs : (zip3 sc (tc.map normalizedTemp) dc).insertionSort devLE = best :: rest)
    (hrerr : sortByDate (((best :: rest).filter
        (fun e => decide (e.2.1 = best.2.1))).map (fun e => (e.1, e.2.2))) =
      Except.error ()) :
    selectRepresentative sc tc dc = Except.error () := by
  rw [selectRepresentative_eq sc tc dc best rest hs, hrerr]

lemma getRecentRTEntry_singleton {α : Type} (s : List α) (t : List ℚ)
    (d : List (Option String)) :
    getRecentRTEntry [s] [t] [d] =
      match selectRepresentative s t d with
      | Except.ok v => Except.ok [v]
      | Except.error e => Except.error e := by
  show (zip3 [s] [t] [d]).mapM (fun g => selectRepresentative g.1 g.2.1 g.2.2) = _
  have hz : zip3 [s] [t] [d] = [(s, t, d)] := rfl
  rw [hz]
  cases h : selectRepresentative s t d with
  | ok v => simp [List.mapM, List.mapM.loop, h, ok_bind]
  | error e => simp [List.mapM, List.mapM.loop, h, error_bind]

/-! ### C1: selection returns minimal deviation, then maximal date -/

lemma selectRepresentative_spec {α : Type} (d0 : α) (structClass : List α)
    (tempClass : List ℚ) (dateClass : List String)
    (hne : structClass ≠ [])
    (hlt : tempClass.length = structClass.length)
    (hld : dateClass.length = structClass.length) :
    ∃ i, i < structClass.length ∧
      selectRepresentative structClass tempClass (dateClass.map some) =
        Except.ok (structClass.getD i d0) ∧
      (∀ j, j < structClass.length →
        normalizedTemp (tempClass.getD i 0) ≤ normalizedTemp (tempClass.getD j 0)) ∧
      (∀ j, j < structClass.length →
        normalizedTemp (tempClass.getD j 0) = normalizedTemp (tempClass.getD i 0) →
        pyStrLt (dateClass.getD i "") (dateClass.getD j "") = false) := by
  have hn : 0 < structClass.length := List.length_pos.mpr hne
  have hlt2 : (tempClass.map normalizedTemp).length = structClass.length := by
    rw [List.length_map, hlt]
  have hld2 : (dateClass.map some).length = structClass.length := by
    rw [List.length_map, hld]
  have hzl : (zip3 structClass (tempClass.map normalizedTemp)
      (dateClass.map some)).length = structClass.length :=
    zip3_length_eq _ _ _ _ rfl hlt2 hld2
  have hentry : ∀ j, j < structClass.length →
      (structClass.getD j d0, normalizedTemp (tempClass.getD j 0),
        some (dateClass.getD j "")) ∈
        zip3 structClass (tempClass.map normalizedTemp) (dateClass.map some) := by
    intro j hj
    have h1 := zip3_getD_mem d0 (0 : ℚ) (none : Option String) structClass
      (tempClass.map normalizedTemp) (dateClass.map some) j hj (by rw [hlt2]; exact hj)
      (by rw [hld2]; exact hj)
    rw [getD_map_of_lt normalizedTemp tempClass j (by rw [hlt]; exact hj) 0 0] at h1
    rw [getD_map_of_lt some dateClass j (by rw [hld]; exact hj) none ""] at h1
    exact h1
  have hindex : ∀ e ∈ zip3 structClass (tempClass.map normalizedTemp) (dateClass.map some),
      ∃ i, i < structClass.length ∧ structClass.getD i d0 = e.1 ∧
        normalizedTemp (tempClass.getD i 0) = e.2.1 ∧
        some (dateClass.getD i "") = e.2.2 := by
    intro e he
    obtain ⟨i, h1, _, _, h4, h5, h6⟩ := mem_zip3_getD d0 (0 : ℚ) (none : Option String)
      structClass (tempClass.map normalizedTemp) (dateClass.map some) e.1 e.2.1 e.2.2
      (by simpa using he)
    refine ⟨i, h1, h4, ?_, ?_⟩
    · rw [← h5, getD_map_of_lt normalizedTemp tempClass i (by rw [hlt]; exact h1) 0 0]
    · rw [← h6, getD_map_of_lt some dateClass i (by rw [hld]; exact h1) none ""]
  cases hs : (zip3 structClass (tempClass.map normalizedTemp)
      (dateClass.map some)).insertionSort devLE with
  | nil =>
    exfalso
    have hp := List.perm_insertionSort devLE
      (zip3 structClass (tempClass.map normalizedTemp) (dateClass.map some))
    rw [hs] at hp
    have h0 := hp.length_eq
    rw [hzl] at h0
    simp at h0
    omega
  | cons best rest =>
  have hperm : (best :: rest).Perm
      (zip3 structClass (tempClass.map normalizedTemp) (dateClass.map some)) := by
    rw [← hs]
    exact List.perm_insertionSort devLE _
  have hsorted : List.Sorted devLE (best :: rest) := by
    rw [← hs]
    exact List.sorted_insertionSort devLE _
  have hminZ : ∀ e ∈ zip3 structClass (tempClass.map normalizedTemp) (dateClass.map some),
      best.2.1 ≤ e.2.1 := by
    intro e he
    rcases List.mem_cons.mp (hperm.mem_iff.mpr he) with rfl | he3
    · exact le_refl _
    · exact List.rel_of_sorted_cons hsorted e he3
  have hcands_some : ∀ y ∈ ((best :: rest).filter
      (fun e => decide (e.2.1 = best.2.1))).map (fun e => (e.1, e.2.2)),
      y.2.isSome = true := by
    intro y hy
    obtain ⟨e, he, hye⟩ := List.mem_map.mp hy
    have he2 : e ∈ zip3 structClass (tempClass.map normalizedTemp) (dateClass.map some) :=
      hperm.mem_iff.mp (List.mem_filter.mp he).1
    have h3 : e.2.2 ∈ dateClass.map some := zip3_mem_third _ _ _ e he2
    obtain ⟨s2, _, hs2⟩ := List.mem_map.mp h3
    rw [← hye]
    show e.2.2.isSome = true
    rw [← hs2]
    rfl
  have hbest_mem : (best.1, best.2.2) ∈ ((best :: rest).filter
      (fun e => decide (e.2.1 = best.2.1))).map (fun e => (e.1, e.2.2)) :=
    List.mem_map_of_mem _ (List.mem_filter.mpr ⟨List.mem_cons_self _ _, by simp⟩)
  obtain ⟨r, hrok, hrperm, hrpw⟩ := sortByDate_allSome _ hcands_some
  have hrne : r ≠ [] := by
    intro h
    rw [h] at hrperm
    have hc0 := hrperm.symm.eq_nil
    rw [hc0] at hbest_mem
    cases hbest_mem
  obtain ⟨lastE, hlast⟩ : ∃ e, r.getLast? = some e := by
    cases h2 : r.getLast? with
    | some e => exact ⟨e, rfl⟩
    | none => exact absurd (List.getLast?_eq_none.mp h2) hrne
  have hres : selectRepresentative structClass tempClass (dateClass.map some) =
      Except.ok lastE.1 := by
    rw [selectRepresentative_eq_ok _ _ _ best rest r hs hrok, hlast]
  have hlr : lastE ∈ r := by
    obtain ⟨hne2, heq⟩ := List.mem_getLast?_eq_getLast (Option.mem_def.mpr hlast)
    rw [heq]
    exact List.getLast_mem hne2
  obtain ⟨e, he, hee⟩ := List.mem_map.mp (hrperm.mem_iff.mp hlr)
  obtain ⟨heZ, hePfilter⟩ := List.mem_filter.mp he
  have heP : e.2.1 = best.2.1 := of_decide_eq_true hePfilter
  have heZip : e ∈ zip3 structClass (tempClass.map normalizedTemp) (dateClass.map some) :=
    hperm.mem_iff.mp heZ
  obtain ⟨i, hi, hi1, hi2, hi3⟩ := hindex e heZip
  have hlast1 : lastE.1 = e.1 := by
    rw [← hee]
  have hlast2 : lastE.2 = e.2.2 := by
    rw [← hee]
  refine ⟨i, hi, ?_, ?_, ?_⟩
  · rw [hres, hlast1, ← hi1]
  · intro j hj
    have hb := hminZ _ (hentry j hj)
    have hb2 : best.2.1 ≤ normalizedTemp (tempClass.getD j 0) := hb
    rw [hi2, heP]
    exact hb2
  · intro j hj hdev
    have hjz := hentry j hj
    have hjfilter : (structClass.getD j d0, normalizedTemp (tempClass.getD j 0),
        some (dateClass.getD j "")) ∈ (best :: rest).filter
        (fun e => decide (e.2.1 = best.2.1)) := by
      refine List.mem_filter.mpr ⟨hperm.mem_iff.mpr hjz, ?_⟩
      simp only [decide_eq_true_eq]
      show normalizedTemp (tempClass.getD j 0) = best.2.1
      rw [hdev, hi2, heP]
    have hjc : (structClass.getD j d0, some (dateClass.getD j "")) ∈ ((best :: rest).filter
        (fun e => decide (e.2.1 = best.2.1))).map (fun e => (e.1, e.2.2)) :=
      List.mem_map_of_mem _ hjfilter
    have hjr : (structClass.getD j d0, some (dateClass.getD j "")) ∈ r :=
      hrperm.mem_iff.mpr hjc
    have hle := pairwise_getLast dateLE dateLE_refl r lastE hrpw hlast _ hjr
    refine hle (dateClass.getD j "") (dateClass.getD i "") rfl ?_
    rw [hlast2, ← hi3]

/-- C1: on a non-empty group whose dates are all strings,
`get_recent_RT_entry` returns the structure of an entry with minimal deviation
`|temperature - 293.0|`; among the entries achieving that minimal deviation,
its date string is lexicographically greatest (no tied date is greater). -/
theorem getRecentRTEntry_min_dev_max_date {α : Type} (d0 : α) (structClass : List α)
    (tempClass : List ℚ) (dateClass : List String)
    (hne : structClass ≠ [])
    (hlt : tempClass.length = structClass.length)
    (hld : dateClass.length = structClass.length) :
    ∃ i, i < structClass.length ∧
      getRecentRTEntry [structClass] [tempClass] [dateClass.map some] =
        Except.ok [structClass.getD i d0] ∧
      (∀ j, j < structClass.length →
        normalizedTemp (tempClass.getD i 0) ≤ normalizedTemp (tempClass.getD j 0)) ∧
      (∀ j, j < structClass.length →
        normalizedTemp (tempClass.getD j 0) = normalizedTemp (tempClass.getD i 0) →
        pyStrLt (dateClass.getD i "") (dateClass.getD j "") = false) := by
  obtain ⟨i, hi, hsel, hmin, htie⟩ :=
    selectRepresentative_spec d0 structClass tempClass dateClass hne hlt hld
  refine ⟨i, hi, ?_, hmin, htie⟩
  rw [getRecentRTEntry_singleton, hsel]

/-- Witness for C1: with equal deviations and the dates of the spec's
tie-break example, the entry dated "2021-06-15" is returned. -/
theorem getRecentRTEntry_min_dev_max_date_witness :
    getRecentRTEntry [[0, 1]] [[292, 294]] [(["2020-01-01", "2021-06-15"].map some)] =
      Except.ok [1] ∧
    (∃ i, i < ([0, 1] : List ℕ).length ∧
      getRecentRTEntry [[0, 1]] [[292, 294]] [(["2020-01-01", "2021-06-15"].map some)] =
        Except.ok [([0, 1] : List ℕ).getD i 7] ∧
      (∀ j, j < ([0, 1] : List ℕ).length →
        normalizedTemp (([(292 : ℚ), 294]).getD i 0) ≤
          normalizedTemp (([(292 : ℚ), 294]).getD j 0)) ∧
      (∀ j, j < ([0, 1] : List ℕ).length →
        normalizedTemp (([(292 : ℚ), 294]).getD j 0) =
          normalizedTemp (([(292 : ℚ), 294]).getD i 0) →
        pyStrLt (["2020-01-01", "2021-06-15"].getD i "")
          (["2020-01-01", "2021-06-15"].getD j "") = false)) :=
  ⟨by decide, getRecentRTEntry_min_dev_max_date 7 [0, 1] [292, 294]
    ["2020-01-01", "2021-06-15"] (by decide) (by decide) (by decide)⟩

/-! ### C9: behaviour of the date tie-break on absent dates -/

lemma selectRepresentative_none_tie_error {α : Type} (d0 : α) (structClass : List α)
    (tempClass : List ℚ) (dateClass : List (Option String)) (i j : ℕ) (s : String)
    (hlt : tempClass.length = structClass.length)
    (hld : dateClass.length = structClass.length)
    (hi : i < structClass.length) (hj : j < structClass.length) (hij : i ≠ j)
    (hmin : ∀ k, k < structClass.length →
      normalizedTemp (tempClass.getD i 0) ≤ normalizedTemp (tempClass.getD k 0))
    (htie : normalizedTemp (tempClass.getD j 0) = normalizedTemp (tempClass.getD i 0))
    (hdi : dateClass.getD i none = none) (hdj : dateClass.getD j none = some s) :
    selectRepresentative structClass tempClass dateClass = Except.error () := by
  have hlt2 : (tempClass.map normalizedTemp).length = structClass.length := by
    rw [List.length_map, hlt]
  have hentry : ∀ k, k < structClass.length →
      (structClass.getD k d0, normalizedTemp (tempClass.getD k 0), dateClass.getD k none) ∈
        zip3 structClass (tempClass.map normalizedTemp) dateClass := by
    intro k hk
    have h1 := zip3_getD_mem d0 (0 : ℚ) (none : Option String) structClass
      (tempClass.map normalizedTemp) dateClass k hk (by rw [hlt2]; exact hk)
      (by rw [hld]; exact hk)
    rw [getD_map_of_lt normalizedTemp tempClass k (by rw [hlt]; exact hk) 0 0] at h1
    exact h1
  cases hs : (zip3 structClass (tempClass.map normalizedTemp)
      dateClass).insertionSort devLE with
  | nil =>
    exfalso
    have hp := List.perm_insertionSort devLE
      (zip3 structClass (tempClass.map normalizedTemp) dateClass)
    rw [hs] at hp
    have h0 := hp.length_eq
    have hzl : (zip3 structClass (tempClass.map normalizedTemp) dateClass).length =
        structClass.length := zip3_length_eq _ _ _ _ rfl hlt2 hld
    rw [hzl] at h0
    simp at h0
    omega
  | cons best rest =>
  have hperm : (best :: rest).Perm
      (zip3 structClass (tempClass.map normalizedTemp) dateClass) := by
    rw [← hs]
    exact List.perm_insertionSort devLE _
  have hsorted : List.Sorted devLE (best :: rest) := by
    rw [← hs]
    exact List.sorted_insertionSort devLE _
  have hminZ : ∀ e ∈ zip3 structClass (tempClass.map normalizedTemp) dateClass,
      best.2.1 ≤ e.2.1 := by
    intro e he
    rcases List.mem_cons.mp (hperm.mem_iff.mpr he) with rfl | he3
    · exact le_refl _
    · exact List.rel_of_sorted_cons hsorted e he3
  have hbz : best ∈ zip3 structClass (tempClass.map normalizedTemp) dateClass :=
    hperm.mem_iff.mp (List.mem_cons_self best rest)
  obtain ⟨k, hk, _, _, _, hk5, _⟩ := mem_zip3_getD d0 (0 : ℚ) (none : Option String)
    structClass (tempClass.map normalizedTemp) dateClass best.1 best.2.1 best.2.2
    (by simpa using hbz)
  have hk2 : normalizedTemp (tempClass.getD k 0) = best.2.1 := by
    rw [← hk5, getD_map_of_lt normalizedTemp tempClass k (by rw [hlt]; exact hk) 0 0]
  have hdevmin : best.2.1 = normalizedTemp (tempClass.getD i 0) := by
    have h1 : best.2.1 ≤ normalizedTemp (tempClass.getD i 0) := hminZ _ (hentry i hi)
    have h2 : normalizedTemp (tempClass.getD i 0) ≤ best.2.1 := by
      rw [← hk2]
      exact hmin k hk
    exact le_antisymm h1 h2
  have hfi : (structClass.getD i d0, normalizedTemp (tempClass.getD i 0),
      dateClass.getD i none) ∈ (best :: rest).filter
      (fun e => decide (e.2.1 = best.2.1)) := by
    refine List.mem_filter.mpr ⟨hperm.mem_iff.mpr (hentry i hi), ?_⟩
    simp only [decide_eq_true_eq]
    exact hdevmin.symm
  have hfj : (structClass.getD j d0, normalizedTemp (tempClass.getD j 0),
      dateClass.getD j none) ∈ (best :: rest).filter
      (fun e => decide (e.2.1 = best.2.1)) := by
    refine List.mem_filter.mpr ⟨hperm.mem_iff.mpr (hentry j hj), ?_⟩
    simp only [decide_eq_true_eq]
    rw [htie]
    exact hdevmin.symm
  have hci : (structClass.getD i d0, (none : Option String)) ∈ ((best :: rest).filter
      (fun e => decide (e.2.1 = best.2.1))).map (fun e => (e.1, e.2.2)) := by
    have h1 := List.mem_map_of_mem (fun e => (e.1, e.2.2)) hfi
    rw [hdi] at h1
    exact h1
  have hcj : (structClass.getD j d0, some s) ∈ ((best :: rest).filter
      (fun e => decide (e.2.1 = best.2.1))).map (fun e => (e.1, e.2.2)) := by
    have h1 := List.mem_map_of_mem (fun e => (e.1, e.2.2)) hfj
    rw [hdj] at h1
    exact h1
  have hlen2 : 2 ≤ (((best :: rest).filter
      (fun e => decide (e.2.1 = best.2.1))).map (fun e => (e.1, e.2.2))).length :=
    two_ne_mem_length hci hcj (by simp)
  have herr := sortByDate_error _ hlen2 ⟨_, hci, rfl⟩
  exact selectRepresentative_eq_error _ _ _ best rest hs herr

lemma selectRepresentative_lone_none_ok {α : Type} (d0 : α) (structClass : List α)
    (tempClass : List ℚ) (dateClass : List (Option String)) (i : ℕ)
    (hlt : tempClass.length = structClass.length)
    (hld : dateClass.length = structClass.length)
    (hi : i < structClass.length)
    (hdi : dateClass.getD i none = none)
    (hstrict : ∀ k, k < structClass.length → k ≠ i →
      normalizedTemp (tempClass.getD i 0) < normalizedTemp (tempClass.getD k 0)) :
    selectRepresentative structClass tempClass dateClass =
      Except.ok (structClass.getD i d0) := by
  have hlt2 : (tempClass.map normalizedTemp).length = structClass.length := by
    rw [List.length_map, hlt]
  have hzip2 : zip3 structClass (tempClass.map normalizedTemp) dateClass =
      (List.range structClass.length).map (fun k => (structClass.getD k d0,
        normalizedTemp (tempClass.getD k 0), dateClass.getD k none)) := by
    rw [zip3_eq_range_map d0 0 none structClass.length _ _ _ rfl hlt2 hld]
    refine List.map_congr_left ?_
    intro k hk
    rw [getD_map_of_lt normalizedTemp tempClass k
      (by rw [hlt]; exact List.mem_range.mp hk) 0 0]
  have hentry : ∀ k, k < structClass.length →
      (structClass.getD k d0, normalizedTemp (tempClass.getD k 0), dateClass.getD k none) ∈
        zip3 structClass (tempClass.map normalizedTemp) dateClass := by
    intro k hk
    rw [hzip2]
    exact List.mem_map_of_mem _ (List.mem_range.mpr hk)
  cases hs : (zip3 structClass (tempClass.map normalizedTemp)
      dateClass).insertionSort devLE with
  | nil =>
    exfalso
    have hp := List.perm_insertionSort devLE
      (zip3 structClass (tempClass.map normalizedTemp) dateClass)
    rw [hs] at hp
    have h0 := hp.length_eq
    have hzl : (zip3 structClass (tempClass.map normalizedTemp) dateClass).length =
        structClass.length := zip3_length_eq _ _ _ _ rfl hlt2 hld
    rw [hzl] at h0
    simp at h0
    omega
  | cons best rest =>
  have hperm : (best :: rest).Perm
      (zip3 structClass (tempClass.map normalizedTemp) dateClass) := by
    rw [← hs]
    exact List.perm_insertionSort devLE _
  have hsorted : List.Sorted devLE (best :: rest) := by
    rw [← hs]
    exact List.sorted_insertionSort devLE _
  have hminZ : ∀ e ∈ zip3 structClass (tempClass.map normalizedTemp) dateClass,
      best.2.1 ≤ e.2.1 := by
    intro e he
    rcases List.mem_cons.mp (hperm.mem_iff.mpr he) with rfl | he3
    · exact le_refl _
    · exact List.rel_of_sorted_cons hsorted e he3
  have hbz : best ∈ zip3 structClass (tempClass.map normalizedTemp) dateClass :=
    hperm.mem_iff.mp (List.mem_cons_self best rest)
  obtain ⟨k, hkr, hkb⟩ := List.mem_map.mp (by rw [hzip2] at hbz; exact hbz)
  have hk : k < structClass.length := List.mem_range.mp hkr
  have hkdev : best.2.1 = normalizedTemp (tempClass.getD k 0) := by
    rw [← hkb]
  have hdevmin : best.2.1 = normalizedTemp (tempClass.getD i 0) := by
    by_cases hki : k = i
    · rw [hkdev, hki]
    · have h1 : best.2.1 ≤ normalizedTemp (tempClass.getD i 0) := hminZ _ (hentry i hi)
      have h2 := hstrict k hk hki
      rw [hkdev] at h1
      exact absurd (lt_of_le_of_lt h1 h2) (lt_irrefl _)
  have hfilter : (best :: rest).filter (fun e => decide (e.2.1 = best.2.1)) =
      [(structClass.getD i d0, normalizedTemp (tempClass.getD i 0),
        dateClass.getD i none)] := by
    have h1 : ((best :: rest).filter (fun e => decide (e.2.1 = best.2.1))).Perm
        ((zip3 structClass (tempClass.map normalizedTemp) dateClass).filter
          (fun e => decide (e.2.1 = best.2.1))) := hperm.filter _
    have h2 : (zip3 structClass (tempClass.map normalizedTemp) dateClass).filter
        (fun e => decide (e.2.1 = best.2.1)) =
        [(structClass.getD i d0, normalizedTemp (tempClass.getD i 0),
          dateClass.getD i none)] := by
      rw [hzip2, List.filter_map]
      have h3 : (List.range structClass.length).filter
          ((fun e => decide (e.2.1 = best.2.1)) ∘ (fun k => (structClass.getD k d0,
            normalizedTemp (tempClass.getD k 0), dateClass.getD k none))) = [i] := by
        refine filter_eq_singleton_of_unique _ (List.nodup_range _) _ i
          (List.mem_range.mpr hi) ?_ ?_
        · simp only [Function.comp]
          simp only [decide_eq_true_eq]
          exact hdevmin.symm
        · intro m hm hqm
          simp only [Function.comp, decide_eq_true_eq] at hqm
          by_contra hmi
          have := hstrict m (List.mem_range.mp hm) hmi
          rw [hqm, hdevmin] at this
          exact lt_irrefl _ this
      rw [h3]
      rfl
    rw [h2] at h1
    exact List.perm_singleton.mp h1
  have hcands : ((best :: rest).filter (fun e => decide (e.2.1 = best.2.1))).map
      (fun e => (e.1, e.2.2)) = [(structClass.getD i d0, (none : Option String))] := by
    rw [hfilter]
    show [(structClass.getD i d0, dateClass.getD i none)] = _
    rw [hdi]
  have hok : sortByDate (((best :: rest).filter (fun e => decide (e.2.1 = best.2.1))).map
      (fun e => (e.1, e.2.2))) =
      Except.ok [(structClass.getD i d0, (none : Option String))] := by
    rw [hcands]
    rfl
  rw [selectRepresentative_eq_ok _ _ _ best rest _ hs hok]
  rfl

/-- C9: when two or more entries tie at the minimal deviation and, among the
tied candidates, one date is absent while another is a string,
`get_recent_RT_entry` raises (the date sort compares `None` with a string)
instead of applying any default tie-break; a lone minimal-deviation entry with
an absent date is returned without error. -/
theorem getRecentRTEntry_none_date_policy :
    (∀ (α : Type) (d0 : α) (structClass : List α) (tempClass : List ℚ)
      (dateClass : List (Option String)) (i j : ℕ) (s : String),
      tempClass.length = structClass.length →
      dateClass.length = structClass.length →
      i < structClass.length → j < structClass.length → i ≠ j →
      (∀ k, k < structClass.length →
        normalizedTemp (tempClass.getD i 0) ≤ normalizedTemp (tempClass.getD k 0)) →
      normalizedTemp (tempClass.getD j 0) = normalizedTemp (tempClass.getD i 0) →
      dateClass.getD i none = none → dateClass.getD j none = some s →
      getRecentRTEntry [structClass] [tempClass] [dateClass] = Except.error ()) ∧
    (∀ (α : Type) (d0 : α) (structClass : List α) (tempClass : List ℚ)
      (dateClass : List (Option String)) (i : ℕ),
      tempClass.length = structClass.length →
      dateClass.length = structClass.length →
      i < structClass.length →
      dateClass.getD i none = none →
      (∀ k, k < structClass.length → k ≠ i →
        normalizedTemp (tempClass.getD i 0) < normalizedTemp (tempClass.getD k 0)) →
      getRecentRTEntry [structClass] [tempClass] [dateClass] =
        Except.ok [structClass.getD i d0]) := by
  constructor
  · intro α d0 sc tc dc i j s h1 h2 h3 h4 h5 h6 h7 h8 h9
    rw [getRecentRTEntry_singleton,
      selectRepresentative_none_tie_error d0 sc tc dc i j s h1 h2 h3 h4 h5 h6 h7 h8 h9]
  · intro α d0 sc tc dc i h1 h2 h3 h4 h5
    rw [getRecentRTEntry_singleton,
      selectRepresentative_lone_none_ok d0 sc tc dc i h1 h2 h3 h4 h5]

/-- Witness for C9: a tied `None`/string pair of dates raises, and a lone
minimal 293 K entry with an absent date is returned. -/
theorem getRecentRTEntry_none_date_policy_witness :
    getRecentRTEntry [[0, 1]] [[292, 294]] [[none, some "2020-01-01"]] =
      Except.error () ∧
    getRecentRTEntry [[0, 1, 2]] [[293, 100, 200]] [[none, some "a", some "b"]] =
      Except.ok [0] :=
  ⟨getRecentRTEntry_none_date_policy.1 ℕ 7 [0, 1] [292, 294] [none, some "2020-01-01"]
      0 1 "2020-01-01" (by decide) (by decide) (by decide) (by decide) (by decide)
      (by decide) (by decide) (by decide) (by decide),
    getRecentRTEntry_none_date_policy.2 ℕ 7 [0, 1, 2] [293, 100, 200]
      [none, some "a", some "b"] 0 (by decide) (by decide) (by decide) (by decide)
      (by decide)⟩

end TabulateCifs
